import Mathlib

set_option maxRecDepth 3000

/-!
Verification of `reconciler.py`: a shallow embedding of its numeric
normaliser (`normalise_numeric`) and reconciliation engine (`reconcile`),
with theorems settling the specified properties.

Modelling conventions:
* Python floats are modelled by `PyFloat`: an exact rational for finite
  values plus the special values `inf`, `neginf` and `nan`.  Finite float
  arithmetic is modelled exactly by rational arithmetic.
* A cell value fed to `normalise_numeric` is a `PyValue`: the missing
  sentinel `None`, a float `NaN` (caught by the `np.isnan` guard), or any
  other value represented by the text `str(value)` produces for it.
* Dates are kept abstract: `pd.to_datetime(..., errors="coerce",
  dayfirst=True)` is an external library call, modelled as a parameter
  `parse : δ → Option D` from raw date cells to parsed dates (`none` is
  `NaT`).  Matching only ever compares parsed dates for equality.
* A dataframe row, projected to the two designated columns, is a `Row`.
-/

namespace Reconciler

/-- A Python float value: finite values are modelled exactly as rationals;
`inf`, `neginf` and `nan` are the IEEE special values that `float(...)`
can produce from strings. -/
inductive PyFloat where
  | finite (q : ℚ)
  | inf
  | neginf
  | nan
deriving DecidableEq

/-- Whether a `PyFloat` is the NaN value (`np.isnan` / pandas NA test). -/
def PyFloat.isNan : PyFloat → Bool
  | .nan => true
  | _ => false

/-- Whether a `PyFloat` is a finite number. -/
def PyFloat.isFinite : PyFloat → Bool
  | .finite _ => true
  | _ => false

/-- IEEE `==` on Python floats: finite values compare by value, infinities
compare equal to themselves, and `nan` is equal to nothing (not even
itself).  This is the equality pandas uses in `m_valid["_value"] ==
row_f["_value"]`. -/
def pyEq : PyFloat → PyFloat → Bool
  | .finite a, .finite b => decide (a = b)
  | .inf, .inf => true
  | .neginf, .neginf => true
  | _, _ => false

/-- IEEE negation of a Python float. -/
def pyNeg : PyFloat → PyFloat
  | .finite a => .finite (-a)
  | .inf => .neginf
  | .neginf => .inf
  | .nan => .nan

/-- IEEE addition of Python floats; finite arithmetic is modelled exactly. -/
def pyAdd : PyFloat → PyFloat → PyFloat
  | .finite a, .finite b => .finite (a + b)
  | .nan, _ => .nan
  | _, .nan => .nan
  | .inf, .neginf => .nan
  | .neginf, .inf => .nan
  | .inf, _ => .inf
  | _, .inf => .inf
  | .neginf, _ => .neginf
  | _, .neginf => .neginf

/-- Subtraction of Python floats (`total_f - total_m`). -/
def pySub (a b : PyFloat) : PyFloat := pyAdd a (pyNeg b)

/-- `Series.sum()` over a list of float values: left fold of addition
starting from `0.0` (pandas sums an empty column to `0.0`). -/
def pySum (l : List PyFloat) : PyFloat := l.foldl pyAdd (.finite 0)

/-- The whitespace characters of Python's `\s` regex class (ASCII range;
the inputs of interest contain no exotic unicode spaces). -/
def isPySpace (c : Char) : Bool :=
  c == ' ' || c == '\t' || c == '\n' || c == '\r' || c == '\x0b' || c == '\x0c'

/-- `str.strip()`: drop leading and trailing whitespace. -/
def pyStripChars (cs : List Char) : List Char :=
  ((cs.dropWhile isPySpace).reverse.dropWhile isPySpace).reverse

/-- `re.sub(r"[Rr\$\s]", "", s)`: delete every `R`, `r`, `$` and
whitespace character. -/
def stripCurrency (cs : List Char) : List Char :=
  cs.filter (fun c => !(c == 'R' || c == 'r' || c == '$' || isPySpace c))

/-- Leading sign of a numeric literal: `true` means negative; returns the
remaining characters. -/
def takeSign : List Char → Bool × List Char
  | '-' :: rest => (true, rest)
  | '+' :: rest => (false, rest)
  | cs => (false, cs)

/-- Split a character list at the first character satisfying `p`: the part
before it, and (when found) the part after it. -/
def splitFirst (p : Char → Bool) : List Char → List Char × Option (List Char)
  | [] => ([], none)
  | c :: rest =>
    if p c then ([], some rest)
    else
      let r := splitFirst p rest
      (c :: r.1, r.2)

/-- Accumulate a digit run in which `_` may only stand between two digits
(Python's digit-group rule); returns the value and the number of digits. -/
def digitsCore : List Char → ℕ → ℕ → Option (ℕ × ℕ)
  | [], acc, n => some (acc, n)
  | '_' :: c :: rest, acc, n =>
    if c.isDigit then digitsCore rest (acc * 10 + (c.toNat - 48)) (n + 1) else none
  | c :: rest, acc, n =>
    if c.isDigit then digitsCore rest (acc * 10 + (c.toNat - 48)) (n + 1) else none

/-- A nonempty digit part (`digitpart` of Python's float grammar): digits
possibly separated by single underscores; value and digit count. -/
def digitPart : List Char → Option (ℕ × ℕ)
  | [] => none
  | c :: rest => if c.isDigit then digitsCore rest (c.toNat - 48) 1 else none

/-- The numeric (non-`inf`/`nan`) part of Python's float grammar, after the
optional sign: `digitpart? ['.' digitpart?] [('e'|'E') sign? digitpart]`,
with at least one digit in the mantissa.  Yields the exact rational value
of the literal; the double-range overflow of `float()` is applied on top
of it in `floatOfChars`. -/
def parseNumber (cs : List Char) : Option ℚ :=
  let me := splitFirst (fun c => c == 'e' || c == 'E') cs
  let eOpt : Option ℤ :=
    match me.2 with
    | none => some 0
    | some ecs =>
      let se := takeSign ecs
      match digitPart se.2 with
      | some ev => some (if se.1 then -(ev.1 : ℤ) else (ev.1 : ℤ))
      | none => none
  match eOpt with
  | none => none
  | some e =>
    let ifr := splitFirst (fun c => c == '.') me.1
    let mOpt : Option ℚ :=
      match ifr.2 with
      | none =>
        match digitPart ifr.1 with
        | some iv => some ((iv.1 : ℚ))
        | none => none
      | some fcs =>
        match ifr.1, fcs with
        | [], [] => none
        | [], _ =>
          match digitPart fcs with
          | some fv => some ((fv.1 : ℚ) / 10 ^ fv.2)
          | none => none
        | _, [] =>
          match digitPart ifr.1 with
          | some iv => some ((iv.1 : ℚ))
          | none => none
        | _, _ =>
          match digitPart ifr.1, digitPart fcs with
          | some iv, some fv => some ((iv.1 : ℚ) + (fv.1 : ℚ) / 10 ^ fv.2)
          | _, _ => none
    match mOpt with
    | none => none
    | some m => some (if 0 ≤ e then m * 10 ^ e.toNat else m / 10 ^ (-e).toNat)

/-- The overflow threshold of IEEE-754 double conversion: under round to
nearest, ties to even, a decimal literal converts to `±inf` exactly when
its magnitude is at least the midpoint `2 ^ 1024 - 2 ^ 970` between the
largest finite double and `2 ^ 1024`.  Python's `float()` overflows
silently to infinity at this bound (`float("1e400") == inf`). -/
def overflowBound : ℚ := 2 ^ 1024 - 2 ^ 970

/-- Python's `float(s)` builtin on a string: optional surrounding
whitespace, optional sign, then `inf`/`infinity`/`nan` (case-insensitive)
or a decimal literal.  A literal whose magnitude reaches `overflowBound`
converts to `±inf`; finite results are kept as exact rationals.  `none`
models the `ValueError` raised on any other text. -/
def floatOfChars (cs : List Char) : Option PyFloat :=
  let sr := takeSign (pyStripChars cs)
  let low := sr.2.map Char.toLower
  if low = ['i', 'n', 'f'] || low = ['i', 'n', 'f', 'i', 'n', 'i', 't', 'y'] then
    some (if sr.1 then .neginf else .inf)
  else if low = ['n', 'a', 'n'] then
    some .nan
  else
    (parseNumber sr.2).map (fun q =>
      if overflowBound ≤ q then (if sr.1 then PyFloat.neginf else PyFloat.inf)
      else PyFloat.finite (if sr.1 then -q else q))

/-- Whether the text, after optional whitespace and sign, spells an
`inf`/`infinity`/`nan` token (case-insensitive); `float(s)` also yields
non-finite values for numeric literals past the overflow threshold. -/
def isInfNanToken (cs : List Char) : Bool :=
  let low := (takeSign (pyStripChars cs)).2.map Char.toLower
  low = ['i', 'n', 'f'] || low = ['i', 'n', 'f', 'i', 'n', 'i', 't', 'y'] ||
    low = ['n', 'a', 'n']

/-- A cell value reaching `normalise_numeric`: the missing sentinel `None`,
a float NaN (caught by the `isinstance(value, float) and np.isnan(value)`
guard), or any other value represented by the text `str(value)` yields. -/
inductive PyValue where
  | none
  | nanFloat
  | str (s : String)
deriving DecidableEq

/-- The string pipeline of `normalise_numeric` before the `float(s)` call:
`s = str(value).strip()`; `s = re.sub(r"[Rr\$\s]", "", s)`; if `s` has
exactly one comma, delete all dots and turn the comma into a dot; if `s`
(still) has more than one comma, delete all commas. -/
def cleanText (s : String) : List Char :=
  let t := stripCurrency (pyStripChars s.data)
  let t :=
    if t.count ',' = 1 then
      (t.filter (fun c => !(c == '.'))).map (fun c => if c == ',' then '.' else c)
    else t
  if t.count ',' > 1 then t.filter (fun c => !(c == ',')) else t

/-- `normalise_numeric(value)`: `None` and float NaN inputs yield `None`;
otherwise the cleaned text is fed to `float(...)`, whose `ValueError` is
caught and turned into `None`. -/
def normalise_numeric : PyValue → Option PyFloat
  | .none => Option.none
  | .nanFloat => Option.none
  | .str s =>
    match floatOfChars (cleanText s) with
    | some f => some f
    | Option.none => Option.none

/-- A dataframe row projected to the designated date and value columns:
`rawDate` is the date cell (of abstract type `δ`), `rawValue` the value
cell. -/
structure Row (δ : Type) where
  rawDate : δ
  rawValue : PyValue
deriving DecidableEq

/-- A row of `f_valid`/`m_valid`: the original row annotated with its
parsed `_date` and `_value`. -/
structure ValidRec (δ D : Type) where
  row : Row δ
  date : D
  value : PyFloat
deriving DecidableEq

/-- Parse one row: `_date` from `pd.to_datetime(..., errors="coerce")`
(modelled by `parse`), `_value` from `normalise_numeric`.  `dropna` keeps
the row only when the date parsed (no `NaT`) and the value is neither
`None` nor NaN (both count as NA for pandas). -/
def toValid {δ D : Type} (parse : δ → Option D) (r : Row δ) : Option (ValidRec δ D) :=
  match parse r.rawDate, normalise_numeric r.rawValue with
  | some d, some v => if v.isNan then Option.none else some ⟨r, d, v⟩
  | _, _ => Option.none

/-- `f_valid` / `m_valid`: the rows surviving `dropna` on `_date` and
`_value`, annotated and in original order. -/
def validRecs {δ D : Type} (parse : δ → Option D) (rows : List (Row δ)) :
    List (ValidRec δ D) :=
  rows.filterMap (toValid parse)

/-- One matching step on the `m_valid` side: find the first entry that is
still unmatched and has `_date == d` and `_value == v` (the boolean mask
`(m_valid["_matched"] == False) & (m_valid["_date"] == ...) & (m_valid["_value"] == ...)`
followed by `candidates.index[0]`), and flag it matched.  `none` when
`len(candidates) == 0`. -/
def markFirstMatch {δ D : Type} [DecidableEq D] (d : D) (v : PyFloat) :
    List (ValidRec δ D × Bool) → Option (List (ValidRec δ D × Bool))
  | [] => Option.none
  | (b, f) :: rest =>
    if f = false ∧ b.date = d ∧ pyEq b.value v = true then
      some ((b, true) :: rest)
    else
      (markFirstMatch d v rest).map (fun rest2 => (b, f) :: rest2)

/-- The matching loop: iterate the `f_valid` rows in order, threading the
flagged `m_valid` list; each `f` row is flagged `true` exactly when a
counterpart was found and consumed.  (The source's
`if row_f["_matched"]: continue` guard never fires: each `f` row is
visited once and its flag is only ever set during its own visit.) -/
def runMatch {δ D : Type} [DecidableEq D] :
    List (ValidRec δ D) → List (ValidRec δ D × Bool) →
    List (ValidRec δ D × Bool) × List (ValidRec δ D × Bool)
  | [], bs => ([], bs)
  | a :: as, bs =>
    match markFirstMatch a.date a.value bs with
    | some bs2 =>
      let r := runMatch as bs2
      ((a, true) :: r.1, r.2)
    | Option.none =>
      let r := runMatch as bs
      ((a, false) :: r.1, r.2)

/-- The tuple `reconcile` returns: the unmatched rows of each side, both
totals, and their difference. -/
structure MatchResult (δ D : Type) where
  unmatchedA : List (ValidRec δ D)
  unmatchedB : List (ValidRec δ D)
  totalA : PyFloat
  totalB : PyFloat
  difference : PyFloat

/-- The body of `reconcile` after the two `dropna` filters: run the greedy
matching over the valid rows, keep the unmatched rows of each side in
order, and sum the `_value` column of each valid set. -/
def reconcileCore {δ D : Type} [DecidableEq D]
    (fValid mValid : List (ValidRec δ D)) : MatchResult δ D :=
  let p := runMatch fValid (mValid.map (fun b => (b, false)))
  let totalF := pySum (fValid.map ValidRec.value)
  let totalM := pySum (mValid.map ValidRec.value)
  { unmatchedA := (p.1.filter (fun q => !q.2)).map Prod.fst
    unmatchedB := (p.2.filter (fun q => !q.2)).map Prod.fst
    totalA := totalF
    totalB := totalM
    difference := pySub totalF totalM }

/-- `reconcile(df_fatura, df_mobills, ...)`: annotate both tables with
parsed date and value, drop invalid rows, match greedily, and return the
unmatched rows and totals. -/
def reconcile {δ D : Type} [DecidableEq D] (parse : δ → Option D)
    (dfFatura dfMobills : List (Row δ)) : MatchResult δ D :=
  reconcileCore (validRecs parse dfFatura) (validRecs parse dfMobills)

/-- Modelled from the spec: rounding a parsed value to 2 decimal places,
the normalisation §4.2 requires before the equality comparison (the
source has no counterpart of it). -/
def roundTo2 (q : ℚ) : ℚ := (round (q * 100) : ℤ) / 100

/-! ## Helper lemmas -/

theorem pyEq_self (v : PyFloat) (h : v.isNan = false) : pyEq v v = true := by
  cases v with
  | finite q => simp [pyEq]
  | inf => rfl
  | neginf => rfl
  | nan => simp [PyFloat.isNan] at h

theorem pyEq_comm (a b : PyFloat) : pyEq a b = pyEq b a := by
  cases a <;> cases b <;> simp [pyEq, eq_comm]

theorem toValid_some {δ D : Type} {parse : δ → Option D} {r : Row δ}
    {vr : ValidRec δ D} (h : toValid parse r = some vr) :
    vr.row = r ∧ vr.value.isNan = false := by
  unfold toValid at h
  split at h
  · rename_i d v hd hv
    by_cases hn : v.isNan = true
    · rw [if_pos hn] at h
      exact absurd h (by simp)
    · rw [if_neg hn] at h
      injection h with h2
      subst h2
      exact ⟨rfl, by simpa using hn⟩
  · exact absurd h (by simp)

theorem mem_validRecs {δ D : Type} {parse : δ → Option D} {rows : List (Row δ)}
    {vr : ValidRec δ D} (h : vr ∈ validRecs parse rows) :
    toValid parse vr.row = some vr := by
  obtain ⟨r, _, hv⟩ := List.mem_filterMap.mp h
  rwa [(toValid_some hv).1]

theorem normalise_str (s : String) :
    normalise_numeric (.str s) = floatOfChars (cleanText s) := by
  simp only [normalise_numeric]
  cases floatOfChars (cleanText s) <;> rfl

theorem count_comma_replace (l : List Char) :
    (((l.filter (fun c => !(c == '.'))).map
      (fun c => if c == ',' then '.' else c)).count ',') = 0 := by
  rw [List.count_eq_zero]
  intro hmem
  obtain ⟨c, -, hc⟩ := List.mem_map.mp hmem
  by_cases h : c = ','
  · subst h
    rw [if_pos (by rfl)] at hc
    exact (by decide : ('.' : Char) ≠ ',') hc
  · rw [if_neg (by simp [h])] at hc
    exact h hc

theorem cleanText_single_comma {s : String}
    (h : (stripCurrency (pyStripChars s.data)).count ',' = 1) :
    cleanText s = ((stripCurrency (pyStripChars s.data)).filter
        (fun c => !(c == '.'))).map (fun c => if c == ',' then '.' else c) := by
  simp only [cleanText]
  rw [if_pos h]
  rw [if_neg (by rw [count_comma_replace]; omega)]

theorem cleanText_multi_comma {s : String}
    (h : (stripCurrency (pyStripChars s.data)).count ',' > 1) :
    cleanText s = (stripCurrency (pyStripChars s.data)).filter (fun c => !(c == ',')) := by
  simp only [cleanText]
  rw [if_neg (show ¬(stripCurrency (pyStripChars s.data)).count ',' = 1 by omega)]
  rw [if_pos h]

theorem filterMap_filter_isSome {α β : Type} (f : α → Option β) (l : List α) :
    (l.filter (fun a => (f a).isSome)).filterMap f = l.filterMap f := by
  induction l with
  | nil => rfl
  | cons a l ih =>
    cases h : f a <;>
      simp [List.filter_cons, List.filterMap_cons, h, ih]

theorem validRecs_sublist {δ D : Type} (parse : δ → Option D) (rows : List (Row δ)) :
    List.Sublist ((validRecs parse rows).map ValidRec.row) rows := by
  induction rows with
  | nil => simp [validRecs]
  | cons r rows ih =>
    show ((List.filterMap (toValid parse) (r :: rows)).map ValidRec.row).Sublist (r :: rows)
    rw [List.filterMap_cons]
    cases h : toValid parse r with
    | none => exact ih.cons r
    | some vr =>
      rw [List.map_cons, (toValid_some h).1]
      exact ih.cons₂ r

theorem markFirstMatch_map_fst {δ D : Type} [DecidableEq D] {d : D} {v : PyFloat}
    {bs bs2 : List (ValidRec δ D × Bool)} (h : markFirstMatch d v bs = some bs2) :
    bs2.map Prod.fst = bs.map Prod.fst := by
  induction bs generalizing bs2 with
  | nil => simp [markFirstMatch] at h
  | cons p rest ih =>
    obtain ⟨b, f⟩ := p
    simp only [markFirstMatch] at h
    split at h
    · injection h with h2
      subst h2
      simp
    · rw [Option.map_eq_some'] at h
      obtain ⟨rest2, hrest, rfl⟩ := h
      simp [ih hrest]

theorem markFirstMatch_mem_false {δ D : Type} [DecidableEq D] {d : D} {v : PyFloat}
    {bs bs2 : List (ValidRec δ D × Bool)} (h : markFirstMatch d v bs = some bs2)
    {b : ValidRec δ D} (hm : (b, false) ∈ bs2) : (b, false) ∈ bs := by
  induction bs generalizing bs2 with
  | nil => simp [markFirstMatch] at h
  | cons p rest ih =>
    obtain ⟨c, f⟩ := p
    simp only [markFirstMatch] at h
    split at h
    · injection h with h2
      subst h2
      rcases List.mem_cons.mp hm with h3 | h3
      · simp at h3
      · exact List.mem_cons_of_mem _ h3
    · rw [Option.map_eq_some'] at h
      obtain ⟨rest2, hrest, rfl⟩ := h
      rcases List.mem_cons.mp hm with h3 | h3
      · exact h3 ▸ List.mem_cons_self _ _
      · exact List.mem_cons_of_mem _ (ih hrest h3)

theorem markFirstMatch_none {δ D : Type} [DecidableEq D] {d : D} {v : PyFloat}
    {bs : List (ValidRec δ D × Bool)} (h : markFirstMatch d v bs = Option.none)
    {b : ValidRec δ D} (hm : (b, false) ∈ bs) :
    ¬(b.date = d ∧ pyEq b.value v = true) := by
  induction bs with
  | nil => cases hm
  | cons p rest ih =>
    obtain ⟨c, f⟩ := p
    simp only [markFirstMatch] at h
    split at h
    · cases h
    · rename_i hc
      rw [Option.map_eq_none'] at h
      rcases List.mem_cons.mp hm with h3 | h3
      · intro hcontra
        obtain ⟨h4, h5⟩ := Prod.mk.inj h3
        exact hc ⟨h5.symm, h4 ▸ hcontra.1, h4 ▸ hcontra.2⟩
      · exact ih h h3

theorem markFirstMatch_spec {δ D : Type} [DecidableEq D] {d : D} {v : PyFloat}
    {bs bs2 : List (ValidRec δ D × Bool)} (h : markFirstMatch d v bs = some bs2) :
    ∃ pre b post, bs = pre ++ (b, false) :: post ∧
      bs2 = pre ++ (b, true) :: post ∧
      b.date = d ∧ pyEq b.value v = true ∧
      ∀ p ∈ pre, ¬(p.2 = false ∧ p.1.date = d ∧ pyEq p.1.value v = true) := by
  induction bs generalizing bs2 with
  | nil => simp [markFirstMatch] at h
  | cons p rest ih =>
    obtain ⟨c, f⟩ := p
    simp only [markFirstMatch] at h
    split at h
    · rename_i hc
      obtain ⟨hf, hd2, hv2⟩ := hc
      subst hf
      injection h with h2
      subst h2
      exact ⟨[], c, rest, rfl, rfl, hd2, hv2, by simp⟩
    · rename_i hc
      rw [Option.map_eq_some'] at h
      obtain ⟨rest2, hrest, rfl⟩ := h
      obtain ⟨pre, b, post, hbs, hbs2, hd2, hv2, hpre⟩ := ih hrest
      refine ⟨(c, f) :: pre, b, post, by rw [hbs]; rfl, by rw [hbs2]; rfl, hd2, hv2, ?_⟩
      intro q hq
      rcases List.mem_cons.mp hq with rfl | hq2
      · exact hc
      · exact hpre q hq2

theorem runMatch_fst_map {δ D : Type} [DecidableEq D] (as : List (ValidRec δ D))
    (bs : List (ValidRec δ D × Bool)) :
    ((runMatch as bs).1).map Prod.fst = as := by
  induction as generalizing bs with
  | nil => rfl
  | cons a as ih =>
    simp only [runMatch]
    cases h : markFirstMatch a.date a.value bs with
    | none => simp [ih]
    | some bs2 => simp [ih]

theorem runMatch_snd_map {δ D : Type} [DecidableEq D] (as : List (ValidRec δ D))
    (bs : List (ValidRec δ D × Bool)) :
    ((runMatch as bs).2).map Prod.fst = bs.map Prod.fst := by
  induction as generalizing bs with
  | nil => rfl
  | cons a as ih =>
    simp only [runMatch]
    cases h : markFirstMatch a.date a.value bs with
    | none => simp [ih]
    | some bs2 => simp [ih, markFirstMatch_map_fst h]

theorem runMatch_mem_false {δ D : Type} [DecidableEq D] (as : List (ValidRec δ D))
    (bs : List (ValidRec δ D × Bool)) {b : ValidRec δ D}
    (hm : (b, false) ∈ (runMatch as bs).2) : (b, false) ∈ bs := by
  induction as generalizing bs with
  | nil => simpa [runMatch] using hm
  | cons a as ih =>
    rw [runMatch] at hm
    cases h : markFirstMatch a.date a.value bs with
    | none =>
      rw [h] at hm
      simp only at hm
      exact ih bs hm
    | some bs2 =>
      rw [h] at hm
      simp only at hm
      exact markFirstMatch_mem_false h (ih bs2 hm)

theorem runMatch_no_cross {δ D : Type} [DecidableEq D]
    (as : List (ValidRec δ D)) (bs : List (ValidRec δ D × Bool))
    {a b : ValidRec δ D}
    (ha : (a, false) ∈ (runMatch as bs).1) (hb : (b, false) ∈ (runMatch as bs).2) :
    ¬(b.date = a.date ∧ pyEq b.value a.value = true) := by
  induction as generalizing bs with
  | nil => simp [runMatch] at ha
  | cons a0 as ih =>
    rw [runMatch] at ha hb
    cases h : markFirstMatch a0.date a0.value bs with
    | some bs2 =>
      rw [h] at ha hb
      simp only at ha hb
      rcases List.mem_cons.mp ha with h2 | h2
      · simp at h2
      · exact ih bs2 h2 hb
    | none =>
      rw [h] at ha hb
      simp only at ha hb
      rcases List.mem_cons.mp ha with h2 | h2
      · obtain ⟨h3, -⟩ := Prod.mk.inj h2
        subst h3
        exact markFirstMatch_none h (runMatch_mem_false as bs hb)
      · exact ih bs h2 hb

/-- Number of entries flagged matched. -/
def matchedCount {α : Type} (l : List (α × Bool)) : ℕ :=
  (l.filter (fun p => p.2)).length

theorem matchedCount_split {α : Type} (l : List (α × Bool)) :
    matchedCount l + (l.filter (fun q => !q.2)).length = l.length := by
  induction l with
  | nil => rfl
  | cons p rest ih =>
    obtain ⟨c, f⟩ := p
    cases f <;> simp [matchedCount, List.filter_cons] at ih ⊢ <;> omega

theorem markFirstMatch_count {δ D : Type} [DecidableEq D] {d : D} {v : PyFloat}
    {bs bs2 : List (ValidRec δ D × Bool)} (h : markFirstMatch d v bs = some bs2) :
    matchedCount bs2 = matchedCount bs + 1 := by
  induction bs generalizing bs2 with
  | nil => simp [markFirstMatch] at h
  | cons p rest ih =>
    obtain ⟨c, f⟩ := p
    simp only [markFirstMatch] at h
    split at h
    · rename_i hc
      obtain ⟨hf, -, -⟩ := hc
      subst hf
      injection h with h2
      subst h2
      simp [matchedCount, List.filter_cons]
    · rw [Option.map_eq_some'] at h
      obtain ⟨rest2, hrest, rfl⟩ := h
      have := ih hrest
      cases f <;> simp [matchedCount, List.filter_cons] at this ⊢ <;> omega

theorem runMatch_count {δ D : Type} [DecidableEq D] (as : List (ValidRec δ D))
    (bs : List (ValidRec δ D × Bool)) :
    matchedCount (runMatch as bs).1 + matchedCount bs = matchedCount (runMatch as bs).2 := by
  induction as generalizing bs with
  | nil => simp [runMatch, matchedCount]
  | cons a as ih =>
    simp only [runMatch]
    cases h : markFirstMatch a.date a.value bs with
    | none =>
      have := ih bs
      simp only [matchedCount, List.filter_cons] at this ⊢
      simpa using this
    | some bs2 =>
      have h1 := ih bs2
      have h2 := markFirstMatch_count h
      have h3 : matchedCount ((a, true) :: (runMatch as bs2).1) =
          1 + matchedCount (runMatch as bs2).1 := by
        simp [matchedCount, List.filter_cons]
        omega
      simp only []
      rw [h3] at *
      omega

theorem unmatchedA_subset {δ D : Type} [DecidableEq D] {parse : δ → Option D}
    {A B : List (Row δ)} {x : ValidRec δ D}
    (hx : x ∈ (reconcile parse A B).unmatchedA) : x ∈ validRecs parse A := by
  have hx2 : x ∈ ((runMatch (validRecs parse A)
      ((validRecs parse B).map (fun b => (b, false)))).1.filter
        (fun q => !q.2)).map Prod.fst := hx
  obtain ⟨q, hq, rfl⟩ := List.mem_map.mp hx2
  have hq2 := List.mem_of_mem_filter hq
  have h3 : q.1 ∈ ((runMatch (validRecs parse A)
      ((validRecs parse B).map (fun b => (b, false)))).1).map Prod.fst :=
    List.mem_map_of_mem _ hq2
  rwa [runMatch_fst_map] at h3

theorem unmatchedB_subset {δ D : Type} [DecidableEq D] {parse : δ → Option D}
    {A B : List (Row δ)} {x : ValidRec δ D}
    (hx : x ∈ (reconcile parse A B).unmatchedB) : x ∈ validRecs parse B := by
  have hx2 : x ∈ ((runMatch (validRecs parse A)
      ((validRecs parse B).map (fun b => (b, false)))).2.filter
        (fun q => !q.2)).map Prod.fst := hx
  obtain ⟨q, hq, rfl⟩ := List.mem_map.mp hx2
  have hq2 := List.mem_of_mem_filter hq
  have h3 : q.1 ∈ ((runMatch (validRecs parse A)
      ((validRecs parse B).map (fun b => (b, false)))).2).map Prod.fst :=
    List.mem_map_of_mem _ hq2
  rw [runMatch_snd_map] at h3
  simpa using h3

/-! ## Staged evaluation lemmas

Concrete runs of the normaliser are established in stages (character-level
facts by `decide`, the final rational assembly by `norm_num`), keeping
each kernel reduction shallow. -/

theorem parseNumber_intfrac (cs : List Char) (c0 d0 : Char) (i2 f2 : List Char)
    (iv n fv m : ℕ)
    (he : splitFirst (fun c => c == 'e' || c == 'E') cs = (cs, Option.none))
    (hd : splitFirst (fun c => c == '.') cs = (c0 :: i2, some (d0 :: f2)))
    (hi : digitPart (c0 :: i2) = some (iv, n))
    (hf : digitPart (d0 :: f2) = some (fv, m)) :
    parseNumber cs = some ((iv : ℚ) + (fv : ℚ) / 10 ^ m) := by
  simp only [parseNumber, he, hd, hi, hf]
  rw [if_pos (le_refl (0 : ℤ))]
  norm_num

theorem parseNumber_int (cs : List Char) (iv n : ℕ)
    (he : splitFirst (fun c => c == 'e' || c == 'E') cs = (cs, Option.none))
    (hd : splitFirst (fun c => c == '.') cs = (cs, Option.none))
    (hi : digitPart cs = some (iv, n)) :
    parseNumber cs = some ((iv : ℚ)) := by
  simp only [parseNumber, he, hd, hi]
  rw [if_pos (le_refl (0 : ℤ))]
  norm_num

theorem parseNumber_exp (cs mant ecs : List Char) (iv n ev k : ℕ)
    (he : splitFirst (fun c => c == 'e' || c == 'E') cs = (mant, some ecs))
    (hse : takeSign ecs = (false, ecs))
    (hde : digitPart ecs = some (ev, k))
    (hd : splitFirst (fun c => c == '.') mant = (mant, Option.none))
    (hi : digitPart mant = some (iv, n)) :
    parseNumber cs = some ((iv : ℚ) * 10 ^ ev) := by
  simp only [parseNumber, he, hse, hde, hd, hi]
  simp [Int.toNat_natCast]

theorem floatOfChars_finite_eval {cs : List Char} {q : ℚ}
    (hsign : takeSign (pyStripChars cs) = (false, cs))
    (hni : isInfNanToken cs = false)
    (hp : parseNumber cs = some q)
    (hov : q < overflowBound) :
    floatOfChars cs = some (.finite q) := by
  simp only [floatOfChars, hsign]
  simp only [isInfNanToken, hsign] at hni
  rw [Bool.or_eq_false_iff] at hni
  obtain ⟨h12, h3⟩ := hni
  rw [Bool.or_eq_false_iff] at h12
  obtain ⟨h1, h2⟩ := h12
  rw [if_neg (by rw [h1, h2]; decide), if_neg (of_decide_eq_false h3), hp]
  simp only [Option.map_some']
  rw [if_neg (not_le.mpr hov)]
  simp

theorem floatOfChars_overflow_eval {cs : List Char} {q : ℚ}
    (hsign : takeSign (pyStripChars cs) = (false, cs))
    (hni : isInfNanToken cs = false)
    (hp : parseNumber cs = some q)
    (hov : overflowBound ≤ q) :
    floatOfChars cs = some PyFloat.inf := by
  simp only [floatOfChars, hsign]
  simp only [isInfNanToken, hsign] at hni
  rw [Bool.or_eq_false_iff] at hni
  obtain ⟨h12, h3⟩ := hni
  rw [Bool.or_eq_false_iff] at h12
  obtain ⟨h1, h2⟩ := h12
  rw [if_neg (by rw [h1, h2]; decide), if_neg (of_decide_eq_false h3), hp]
  simp only [Option.map_some']
  rw [if_pos hov]
  simp

theorem normalise_finite_eval (s : String) (cs : List Char) {q : ℚ}
    (hclean : cleanText s = cs)
    (hsign : takeSign (pyStripChars cs) = (false, cs))
    (hni : isInfNanToken cs = false)
    (hp : parseNumber cs = some q)
    (hov : q < overflowBound) :
    normalise_numeric (.str s) = some (.finite q) := by
  rw [normalise_str, hclean]
  exact floatOfChars_finite_eval hsign hni hp hov

theorem toValid_eval {δ D : Type} (parse : δ → Option D) (r : Row δ) (d : D) (q : ℚ)
    (hd : parse r.rawDate = some d)
    (hv : normalise_numeric r.rawValue = some (.finite q)) :
    toValid parse r = some ⟨r, d, PyFloat.finite q⟩ := by
  unfold toValid
  rw [hd, hv]
  rfl

theorem reconcile_one_one_unmatched {δ D : Type} [DecidableEq D] (parse : δ → Option D)
    (a b : Row δ) (da db : D) (va vb : PyFloat)
    (ha : toValid parse a = some ⟨a, da, va⟩) (hb : toValid parse b = some ⟨b, db, vb⟩)
    (hne : ¬(db = da ∧ pyEq vb va = true)) :
    (reconcile parse [a] [b]).unmatchedA = [⟨a, da, va⟩] ∧
    (reconcile parse [a] [b]).unmatchedB = [⟨b, db, vb⟩] := by
  have hA : validRecs parse [a] = [⟨a, da, va⟩] := by
    simp [validRecs, List.filterMap_cons, ha]
  have hB : validRecs parse [b] = [⟨b, db, vb⟩] := by
    simp [validRecs, List.filterMap_cons, hb]
  unfold reconcile
  rw [hA, hB]
  unfold reconcileCore
  simp [runMatch, markFirstMatch, hne]

/-! ## Concrete evaluations of the normaliser -/

theorem normalise_eval_1010 :
    normalise_numeric (.str "10.10") = some (.finite (101 / 10)) := by
  have h := normalise_finite_eval "10.10" ['1', '0', '.', '1', '0']
    (by decide) (by decide) (by decide)
    (parseNumber_intfrac ['1', '0', '.', '1', '0'] '1' '1' ['0'] ['0'] 10 2 10 2
      (by decide) (by decide) (by decide) (by decide))
    (by norm_num [overflowBound])
  rw [h]
  norm_num

theorem normalise_eval_10104 :
    normalise_numeric (.str "10.104") = some (.finite (1263 / 125)) := by
  have h := normalise_finite_eval "10.104" ['1', '0', '.', '1', '0', '4']
    (by decide) (by decide) (by decide)
    (parseNumber_intfrac ['1', '0', '.', '1', '0', '4'] '1' '1' ['0'] ['0', '4'] 10 2 104 3
      (by decide) (by decide) (by decide) (by decide))
    (by norm_num [overflowBound])
  rw [h]
  norm_num

theorem normalise_eval_1000 :
    normalise_numeric (.str "10.00") = some (.finite 10) := by
  have h := normalise_finite_eval "10.00" ['1', '0', '.', '0', '0']
    (by decide) (by decide) (by decide)
    (parseNumber_intfrac ['1', '0', '.', '0', '0'] '1' '0' ['0'] ['0'] 10 2 0 2
      (by decide) (by decide) (by decide) (by decide))
    (by norm_num [overflowBound])
  rw [h]
  norm_num

theorem normalise_eval_brazil :
    normalise_numeric (.str "1.234,56") = some (.finite (123456 / 100)) := by
  have h := normalise_finite_eval "1.234,56" ['1', '2', '3', '4', '.', '5', '6']
    (by decide) (by decide) (by decide)
    (parseNumber_intfrac ['1', '2', '3', '4', '.', '5', '6'] '1' '5' ['2', '3', '4'] ['6']
      1234 4 56 2 (by decide) (by decide) (by decide) (by decide))
    (by norm_num [overflowBound])
  rw [h]
  norm_num

theorem normalise_eval_intl :
    normalise_numeric (.str "1234.56") = some (.finite (123456 / 100)) := by
  have h := normalise_finite_eval "1234.56" ['1', '2', '3', '4', '.', '5', '6']
    (by decide) (by decide) (by decide)
    (parseNumber_intfrac ['1', '2', '3', '4', '.', '5', '6'] '1' '5' ['2', '3', '4'] ['6']
      1234 4 56 2 (by decide) (by decide) (by decide) (by decide))
    (by norm_num [overflowBound])
  rw [h]
  norm_num

theorem normalise_eval_currency :
    normalise_numeric (.str "R$ 10,00") = some (.finite 10) := by
  have h := normalise_finite_eval "R$ 10,00" ['1', '0', '.', '0', '0']
    (by decide) (by decide) (by decide)
    (parseNumber_intfrac ['1', '0', '.', '0', '0'] '1' '0' ['0'] ['0'] 10 2 0 2
      (by decide) (by decide) (by decide) (by decide))
    (by norm_num [overflowBound])
  rw [h]
  norm_num

theorem normalise_eval_five :
    normalise_numeric (.str "5") = some (.finite 5) := by
  have h := normalise_finite_eval "5" ['5']
    (by decide) (by decide) (by decide)
    (parseNumber_int ['5'] 5 1 (by decide) (by decide) (by decide))
    (by norm_num [overflowBound])
  rw [h]
  norm_num

theorem normalise_eval_500 :
    normalise_numeric (.str "5.00") = some (.finite 5) := by
  have h := normalise_finite_eval "5.00" ['5', '.', '0', '0']
    (by decide) (by decide) (by decide)
    (parseNumber_intfrac ['5', '.', '0', '0'] '5' '0' [] ['0'] 5 1 0 2
      (by decide) (by decide) (by decide) (by decide))
    (by norm_num [overflowBound])
  rw [h]
  norm_num

theorem normalise_eval_1e400 :
    normalise_numeric (.str "1e400") = some PyFloat.inf := by
  rw [normalise_str]
  have hclean : cleanText "1e400" = ['1', 'e', '4', '0', '0'] := by decide
  rw [hclean]
  have hp := parseNumber_exp ['1', 'e', '4', '0', '0'] ['1'] ['4', '0', '0'] 1 1 400 3
    (by decide) (by decide) (by decide) (by decide) (by decide)
  exact floatOfChars_overflow_eval (by decide) (by decide) hp
    (by norm_num [overflowBound])

/-! ## Claims -/

/-- C3: `reconcile` returns `totalA` equal to the sum of `parsed_value`
over all valid A-records (matched or not), `totalB` the sum over all valid
B-records, and `difference = totalA - totalB`; the totals do not depend on
the other table, hence not on the matching outcome. -/
theorem c3_totals_of_valid {δ D : Type} [DecidableEq D] (parse : δ → Option D)
    (A B : List (Row δ)) :
    (reconcile parse A B).totalA = pySum ((validRecs parse A).map ValidRec.value) ∧
    (reconcile parse A B).totalB = pySum ((validRecs parse B).map ValidRec.value) ∧
    (reconcile parse A B).difference =
      pySub (reconcile parse A B).totalA (reconcile parse A B).totalB ∧
    (∀ B2, (reconcile parse A B2).totalA = (reconcile parse A B).totalA) ∧
    (∀ A2, (reconcile parse A2 B).totalB = (reconcile parse A B).totalB) :=
  ⟨rfl, rfl, rfl, fun _ => rfl, fun _ => rfl⟩

/-- C7: the embedded `reconcile` is a total function — every potentially
failing step of the source is internally coerced (`errors="coerce"` for
dates, the caught `ValueError` in `normalise_numeric`, the `len(candidates)
> 0` guard before `candidates.index[0]`) — and malformed rows are silently
excluded: dropping them from the input beforehand yields the very same
`MatchResult`. -/
theorem c7_total_and_silently_excludes {δ D : Type} [DecidableEq D]
    (parse : δ → Option D) (A B : List (Row δ)) :
    ∃ r : MatchResult δ D, reconcile parse A B = r ∧
      reconcile parse (A.filter (fun row => (toValid parse row).isSome))
        (B.filter (fun row => (toValid parse row).isSome)) = r := by
  refine ⟨reconcile parse A B, rfl, ?_⟩
  simp only [reconcile, validRecs]
  rw [filterMap_filter_isSome, filterMap_filter_isSome]

/-- C8: `normalise_numeric` and `reconcile` are pure: two runs on the same
input yield the same result, componentwise for the `MatchResult` (the
source copies its input frames and touches no global state, so the
embedding is an ordinary function). -/
theorem c8_deterministic {δ D : Type} [DecidableEq D] :
    (∀ v : PyValue, normalise_numeric v = normalise_numeric v) ∧
    ∀ (parse : δ → Option D) (A B : List (Row δ)),
      (reconcile parse A B).unmatchedA = (reconcile parse A B).unmatchedA ∧
      (reconcile parse A B).unmatchedB = (reconcile parse A B).unmatchedB ∧
      (reconcile parse A B).totalA = (reconcile parse A B).totalA ∧
      (reconcile parse A B).totalB = (reconcile parse A B).totalB ∧
      (reconcile parse A B).difference = (reconcile parse A B).difference :=
  ⟨fun _ => rfl, fun _ _ _ => ⟨rfl, rfl, rfl, rfl, rfl⟩⟩

/-- C9: the unmatched rows of each side are reported in original input
order: stripped to their underlying rows they form a subsequence of the
respective input table. -/
theorem c9_order_preserved {δ D : Type} [DecidableEq D] (parse : δ → Option D)
    (A B : List (Row δ)) :
    List.Sublist (((reconcile parse A B).unmatchedA).map ValidRec.row) A ∧
    List.Sublist (((reconcile parse A B).unmatchedB).map ValidRec.row) B := by
  have key : ∀ (l : List (ValidRec δ D × Bool)) (rows : List (Row δ)),
      List.Sublist ((l.map Prod.fst).map ValidRec.row) rows →
      List.Sublist (((l.filter (fun q => !q.2)).map Prod.fst).map ValidRec.row) rows :=
    fun l rows h =>
      List.Sublist.trans (((List.filter_sublist l).map Prod.fst).map ValidRec.row) h
  constructor
  · show List.Sublist ((((runMatch (validRecs parse A)
        ((validRecs parse B).map (fun b => (b, false)))).1.filter
          (fun q => !q.2)).map Prod.fst).map ValidRec.row) A
    apply key
    rw [runMatch_fst_map]
    exact validRecs_sublist parse A
  · show List.Sublist ((((runMatch (validRecs parse A)
        ((validRecs parse B).map (fun b => (b, false)))).2.filter
          (fun q => !q.2)).map Prod.fst).map ValidRec.row) B
    apply key
    rw [runMatch_snd_map]
    have := validRecs_sublist parse B
    simpa [List.map_map, Function.comp] using this

/-- C4: a record whose parsed date or parsed value is absent takes no part
in the run: removing it from either input changes nothing about the
result, it is never a valid record, and it never appears among the
unmatched outputs. -/
theorem c4_invalid_row_excluded {δ D : Type} [DecidableEq D] (parse : δ → Option D)
    (r : Row δ)
    (h : parse r.rawDate = Option.none ∨ normalise_numeric r.rawValue = Option.none) :
    (∀ A1 A2 B, reconcile parse (A1 ++ r :: A2) B = reconcile parse (A1 ++ A2) B) ∧
    (∀ A B1 B2, reconcile parse A (B1 ++ r :: B2) = reconcile parse A (B1 ++ B2)) ∧
    (∀ A : List (Row δ), r ∉ ((validRecs parse A : List (ValidRec δ D))).map ValidRec.row) ∧
    (∀ A B, ∀ x ∈ (reconcile parse A B).unmatchedA, x.row ≠ r) ∧
    (∀ A B, ∀ x ∈ (reconcile parse A B).unmatchedB, x.row ≠ r) := by
  have hnone : toValid parse r = (Option.none : Option (ValidRec δ D)) := by
    unfold toValid
    rcases h with h | h
    · rw [h]
    · rw [h]
      cases parse r.rawDate <;> rfl
  have hvalid : ∀ A1 A2 : List (Row δ),
      validRecs parse (A1 ++ r :: A2) = (validRecs parse (A1 ++ A2) : List (ValidRec δ D)) := by
    intro A1 A2
    simp [validRecs, List.filterMap_append, List.filterMap_cons, hnone]
  have hmem : ∀ A : List (Row δ), r ∉ ((validRecs parse A : List (ValidRec δ D))).map ValidRec.row := by
    intro A hr
    obtain ⟨vr, hvr, hrow⟩ := List.mem_map.mp hr
    have h2 := mem_validRecs hvr
    rw [hrow, hnone] at h2
    exact Option.noConfusion h2
  refine ⟨?_, ?_, hmem, ?_, ?_⟩
  · intro A1 A2 B
    unfold reconcile
    rw [hvalid]
  · intro A B1 B2
    unfold reconcile
    rw [hvalid]
  · intro A B x hx hxr
    exact hmem A (List.mem_map.mpr ⟨x, unmatchedA_subset hx, hxr⟩)
  · intro A B x hx hxr
    exact hmem B (List.mem_map.mpr ⟨x, unmatchedB_subset hx, hxr⟩)

/-- C4 witness: a row with an unparseable date is invisible to
`reconcile`. -/
theorem c4_invalid_row_excluded_witness :
    reconcile (fun x => x)
        [({ rawDate := Option.none, rawValue := PyValue.str "5.00" } : Row (Option ℕ))] [] =
      reconcile (fun x => x) ([] : List (Row (Option ℕ))) [] :=
  (c4_invalid_row_excluded (fun x => x)
    { rawDate := Option.none, rawValue := PyValue.str "5.00" } (Or.inl rfl)).1 [] [] []

/-- C10: the greedy matching is maximal: no unmatched A-record agrees with
any unmatched B-record on parsed date and value, and both sides match the
same number of records. -/
theorem c10_matching_maximal {δ D : Type} [DecidableEq D] (parse : δ → Option D)
    (A B : List (Row δ)) :
    (∀ x ∈ (reconcile parse A B).unmatchedA, ∀ y ∈ (reconcile parse A B).unmatchedB,
      ¬(x.date = y.date ∧ pyEq x.value y.value = true)) ∧
    (validRecs parse A).length - ((reconcile parse A B).unmatchedA).length =
      (validRecs parse B).length - ((reconcile parse A B).unmatchedB).length := by
  constructor
  · intro x hx y hy
    have hx2 : x ∈ ((runMatch (validRecs parse A)
        ((validRecs parse B).map (fun b => (b, false)))).1.filter
          (fun q => !q.2)).map Prod.fst := hx
    have hy2 : y ∈ ((runMatch (validRecs parse A)
        ((validRecs parse B).map (fun b => (b, false)))).2.filter
          (fun q => !q.2)).map Prod.fst := hy
    obtain ⟨⟨x1, xf⟩, hqx, hqx2⟩ := List.mem_map.mp hx2
    obtain ⟨⟨y1, yf⟩, hqy, hqy2⟩ := List.mem_map.mp hy2
    subst hqx2
    subst hqy2
    have hxf : xf = false := by simpa using List.of_mem_filter hqx
    have hyf : yf = false := by simpa using List.of_mem_filter hqy
    subst hxf
    subst hyf
    have hcross := runMatch_no_cross (validRecs parse A)
      ((validRecs parse B).map (fun b => (b, false)))
      (List.mem_of_mem_filter hqx) (List.mem_of_mem_filter hqy)
    intro hcontra
    obtain ⟨h1, h2⟩ := hcontra
    apply hcross
    refine ⟨h1.symm, ?_⟩
    rw [pyEq_comm]
    exact h2
  · have hcnt := runMatch_count (validRecs parse A)
      ((validRecs parse B).map (fun b => (b, false)))
    have hb0 : matchedCount ((validRecs parse B).map
        (fun b => ((b : ValidRec δ D), false))) = 0 := by
      simp [matchedCount, List.filter_map, Function.comp]
    have hsplA := matchedCount_split (runMatch (validRecs parse A)
      ((validRecs parse B).map (fun b => (b, false)))).1
    have hsplB := matchedCount_split (runMatch (validRecs parse A)
      ((validRecs parse B).map (fun b => (b, false)))).2
    have hlenA : ((runMatch (validRecs parse A)
        ((validRecs parse B).map (fun b => (b, false)))).1).length =
        (validRecs parse A).length := by
      have := congrArg List.length (runMatch_fst_map (validRecs parse A)
        ((validRecs parse B).map (fun b => (b, false))))
      simpa using this
    have hlenB : ((runMatch (validRecs parse A)
        ((validRecs parse B).map (fun b => (b, false)))).2).length =
        (validRecs parse B).length := by
      have := congrArg List.length (runMatch_snd_map (validRecs parse A)
        ((validRecs parse B).map (fun b => (b, false))))
      simpa using this
    have huA : ((reconcile parse A B).unmatchedA).length =
        ((runMatch (validRecs parse A)
          ((validRecs parse B).map (fun b => (b, false)))).1.filter
            (fun q => !q.2)).length := by
      show (((runMatch (validRecs parse A)
        ((validRecs parse B).map (fun b => (b, false)))).1.filter
          (fun q => !q.2)).map Prod.fst).length = _
      simp
    have huB : ((reconcile parse A B).unmatchedB).length =
        ((runMatch (validRecs parse A)
          ((validRecs parse B).map (fun b => (b, false)))).2.filter
            (fun q => !q.2)).length := by
      show (((runMatch (validRecs parse A)
        ((validRecs parse B).map (fun b => (b, false)))).2.filter
          (fun q => !q.2)).map Prod.fst).length = _
      simp
    rw [huA, huB]
    omega

/-- C10 witness: two valid records sharing a value but not a date are both
left unmatched, and they indeed do not agree on date and value. -/
theorem c10_matching_maximal_witness :
    ¬((⟨⟨some 1, PyValue.str "5.00"⟩, 1, PyFloat.finite 5⟩ : ValidRec (Option ℕ) ℕ).date =
        (⟨⟨some 2, PyValue.str "5.00"⟩, 2, PyFloat.finite 5⟩ : ValidRec (Option ℕ) ℕ).date ∧
      pyEq (⟨⟨some 1, PyValue.str "5.00"⟩, 1, PyFloat.finite 5⟩ : ValidRec (Option ℕ) ℕ).value
        (⟨⟨some 2, PyValue.str "5.00"⟩, 2, PyFloat.finite 5⟩ : ValidRec (Option ℕ) ℕ).value = true) :=
  (c10_matching_maximal (fun x => x) [⟨some 1, PyValue.str "5.00"⟩]
    [⟨some 2, PyValue.str "5.00"⟩]).1
    ⟨⟨some 1, PyValue.str "5.00"⟩, 1, PyFloat.finite 5⟩
    (by
      rw [(reconcile_one_one_unmatched (fun x => x)
        ⟨some 1, PyValue.str "5.00"⟩ ⟨some 2, PyValue.str "5.00"⟩ 1 2
        (PyFloat.finite 5) (PyFloat.finite 5)
        (toValid_eval _ _ 1 5 rfl normalise_eval_500)
        (toValid_eval _ _ 2 5 rfl normalise_eval_500)
        (by simp)).1]
      exact List.mem_singleton.mpr rfl)
    ⟨⟨some 2, PyValue.str "5.00"⟩, 2, PyFloat.finite 5⟩
    (by
      rw [(reconcile_one_one_unmatched (fun x => x)
        ⟨some 1, PyValue.str "5.00"⟩ ⟨some 2, PyValue.str "5.00"⟩ 1 2
        (PyFloat.finite 5) (PyFloat.finite 5)
        (toValid_eval _ _ 1 5 rfl normalise_eval_500)
        (toValid_eval _ _ 2 5 rfl normalise_eval_500)
        (by simp)).2]
      exact List.mem_singleton.mpr rfl)

/-- C2: matching is greedy, order-preserving and one-to-one: the pairing
step consumes the first still-unmatched B-record (in original order) with
equal parsed date and value, leaving every earlier entry untouched; and
for three A-records and two B-records all sharing one (date, value) pair,
exactly the last A-record is unmatched and all of B is matched. -/
theorem c2_greedy_first_available :
    (∀ (δ D : Type) [DecidableEq D] (d : D) (v : PyFloat)
        (bs bs2 : List (ValidRec δ D × Bool)),
      markFirstMatch d v bs = some bs2 →
      ∃ (pre : List (ValidRec δ D × Bool)) (b : ValidRec δ D)
          (post : List (ValidRec δ D × Bool)),
        bs = pre ++ (b, false) :: post ∧
        bs2 = pre ++ (b, true) :: post ∧
        b.date = d ∧ pyEq b.value v = true ∧
        ∀ p ∈ pre, ¬(p.2 = false ∧ p.1.date = d ∧ pyEq p.1.value v = true)) ∧
    (∀ (δ D : Type) [DecidableEq D] (parse : δ → Option D)
        (r1 r2 r3 s1 s2 : Row δ) (d : D) (v : PyFloat),
      toValid parse r1 = some ⟨r1, d, v⟩ → toValid parse r2 = some ⟨r2, d, v⟩ →
      toValid parse r3 = some ⟨r3, d, v⟩ → toValid parse s1 = some ⟨s1, d, v⟩ →
      toValid parse s2 = some ⟨s2, d, v⟩ →
      (reconcile parse [r1, r2, r3] [s1, s2]).unmatchedA = [⟨r3, d, v⟩] ∧
      (reconcile parse [r1, r2, r3] [s1, s2]).unmatchedB = []) := by
  constructor
  · intro δ D instD d v bs bs2 h
    exact markFirstMatch_spec h
  · intro δ D instD parse r1 r2 r3 s1 s2 d v h1 h2 h3 h4 h5
    have hnan : v.isNan = false := by
      have := (toValid_some h4).2
      simpa using this
    have hveq : pyEq v v = true := pyEq_self v hnan
    have hA : validRecs parse [r1, r2, r3] =
        ([⟨r1, d, v⟩, ⟨r2, d, v⟩, ⟨r3, d, v⟩] : List (ValidRec δ D)) := by
      simp [validRecs, List.filterMap_cons, h1, h2, h3]
    have hB : validRecs parse [s1, s2] = ([⟨s1, d, v⟩, ⟨s2, d, v⟩] : List (ValidRec δ D)) := by
      simp [validRecs, List.filterMap_cons, h4, h5]
    unfold reconcile
    rw [hA, hB]
    unfold reconcileCore
    simp [runMatch, markFirstMatch, hveq]

/-- C2 witness: the duplicate-handling scenario at concrete inputs. -/
theorem c2_greedy_first_available_witness :
    (reconcile (fun x => x)
        [(⟨some 1, PyValue.str "10.00"⟩ : Row (Option ℕ)), ⟨some 1, PyValue.str "10.00"⟩,
          ⟨some 1, PyValue.str "10.00"⟩]
        [⟨some 1, PyValue.str "10.00"⟩, ⟨some 1, PyValue.str "10.00"⟩]).unmatchedA =
      [⟨⟨some 1, PyValue.str "10.00"⟩, 1, PyFloat.finite 10⟩] ∧
    (reconcile (fun x => x)
        [(⟨some 1, PyValue.str "10.00"⟩ : Row (Option ℕ)), ⟨some 1, PyValue.str "10.00"⟩,
          ⟨some 1, PyValue.str "10.00"⟩]
        [⟨some 1, PyValue.str "10.00"⟩, ⟨some 1, PyValue.str "10.00"⟩]).unmatchedB = [] :=
  c2_greedy_first_available.2 (Option ℕ) ℕ (fun x => x)
    ⟨some 1, PyValue.str "10.00"⟩ ⟨some 1, PyValue.str "10.00"⟩ ⟨some 1, PyValue.str "10.00"⟩
    ⟨some 1, PyValue.str "10.00"⟩ ⟨some 1, PyValue.str "10.00"⟩ 1 (PyFloat.finite 10)
    (toValid_eval _ _ 1 10 rfl normalise_eval_1000)
    (toValid_eval _ _ 1 10 rfl normalise_eval_1000)
    (toValid_eval _ _ 1 10 rfl normalise_eval_1000)
    (toValid_eval _ _ 1 10 rfl normalise_eval_1000)
    (toValid_eval _ _ 1 10 rfl normalise_eval_1000)

/-- C5: the regional decimal rules of `normalise_numeric`: after stripping
currency markers and whitespace, exactly one comma means dots are deleted
and the comma becomes the decimal point, more than one comma means all
commas are deleted; and the advertised examples evaluate accordingly. -/
theorem c5_regional_decimal_rules :
    normalise_numeric (.str "1.234,56") = some (.finite (123456 / 100)) ∧
    normalise_numeric (.str "1234.56") = some (.finite (123456 / 100)) ∧
    normalise_numeric (.str "R$ 10,00") = some (.finite 10) ∧
    normalise_numeric (.str "abc") = Option.none ∧
    normalise_numeric PyValue.none = Option.none ∧
    (∀ s : String,
      (stripCurrency (pyStripChars s.data)).count ',' = 1 →
      normalise_numeric (.str s) =
        floatOfChars (((stripCurrency (pyStripChars s.data)).filter
          (fun c => !(c == '.'))).map (fun c => if c == ',' then '.' else c))) ∧
    (∀ s : String,
      (stripCurrency (pyStripChars s.data)).count ',' > 1 →
      normalise_numeric (.str s) =
        floatOfChars ((stripCurrency (pyStripChars s.data)).filter (fun c => !(c == ',')))) := by
  refine ⟨normalise_eval_brazil, normalise_eval_intl, normalise_eval_currency,
    by decide, rfl, ?_, ?_⟩
  · intro s h
    rw [normalise_str, cleanText_single_comma h]
  · intro s h
    rw [normalise_str, cleanText_multi_comma h]

/-- C5 witness: the single-comma rule applied at a concrete input. -/
theorem c5_regional_decimal_rules_witness :
    normalise_numeric (.str "2,5") =
      floatOfChars (((stripCurrency (pyStripChars "2,5".data)).filter
        (fun c => !(c == '.'))).map (fun c => if c == ',' then '.' else c)) :=
  c5_regional_decimal_rules.2.2.2.2.2.1 "2,5" (by decide)

/-- C6 counterexample: `normalise_numeric` can return a non-finite float —
the input `"inf"` survives the cleaning pipeline and `float("inf")` is
positive infinity, `float("nan")` is NaN, and `float("1e400")` silently
overflows to positive infinity, refuting "the returned value is never NaN
or infinite". -/
theorem c6_nonfinite_counterexample :
    normalise_numeric (.str "inf") = some PyFloat.inf ∧
    PyFloat.inf.isFinite = false ∧
    normalise_numeric (.str "nan") = some PyFloat.nan ∧
    normalise_numeric (.str "1e400") = some PyFloat.inf :=
  ⟨by decide, by decide, by decide, normalise_eval_1e400⟩

/-- C6 (amended): `normalise_numeric` always returns absent or a float;
the missing sentinel and float NaN inputs yield absent; and a non-finite
result arises only when the cleaned text spells an `inf`/`infinity`/`nan`
token or its numeric literal reaches the double overflow threshold (as
`float("1e400")` overflows to infinity in the source). -/
theorem c6_amended_totality :
    normalise_numeric PyValue.none = Option.none ∧
    normalise_numeric PyValue.nanFloat = Option.none ∧
    (∀ (s : String) (f : PyFloat), normalise_numeric (.str s) = some f →
      f.isFinite = false →
      isInfNanToken (cleanText s) = true ∨
      ∃ q : ℚ, parseNumber ((takeSign (pyStripChars (cleanText s))).2) = some q ∧
        overflowBound ≤ q) := by
  refine ⟨rfl, rfl, ?_⟩
  intro s f heq hfin
  by_cases htok : isInfNanToken (cleanText s) = true
  · exact Or.inl htok
  right
  have htok2 : isInfNanToken (cleanText s) = false := by
    cases h : isInfNanToken (cleanText s)
    · rfl
    · exact absurd h htok
  rw [normalise_str] at heq
  simp only [floatOfChars] at heq
  simp only [isInfNanToken] at htok2
  rw [Bool.or_eq_false_iff] at htok2
  obtain ⟨h12, h3⟩ := htok2
  rw [Bool.or_eq_false_iff] at h12
  obtain ⟨h1, h2⟩ := h12
  rw [if_neg (by rw [h1, h2]; decide)] at heq
  rw [if_neg (of_decide_eq_false h3)] at heq
  rw [Option.map_eq_some'] at heq
  obtain ⟨q, hq, hf⟩ := heq
  refine ⟨q, hq, ?_⟩
  by_cases hov : overflowBound ≤ q
  · exact hov
  · exfalso
    rw [if_neg hov] at hf
    rw [← hf] at hfin
    simp [PyFloat.isFinite] at hfin

/-- C6 witness: the overflowing literal `"1e400"` realizes the overflow
disjunct of the amended claim. -/
theorem c6_amended_totality_witness :
    isInfNanToken (cleanText "1e400") = true ∨
    ∃ q : ℚ, parseNumber ((takeSign (pyStripChars (cleanText "1e400"))).2) = some q ∧
      overflowBound ≤ q :=
  c6_amended_totality.2.2 "1e400" PyFloat.inf normalise_eval_1e400 (by decide)

/-- C1: evaluation at the failing input: the parsed values of `"10.10"`
and `"10.104"` round to the same 2-decimal value, yet with equal dates the
engine compares the unrounded parsed floats and leaves both records
unmatched — the comparison is not performed on values rounded to 2 decimal
places. -/
theorem c1_compare_is_unrounded :
    normalise_numeric (.str "10.10") = some (.finite (101 / 10)) ∧
    normalise_numeric (.str "10.104") = some (.finite (1263 / 125)) ∧
    roundTo2 (101 / 10) = roundTo2 (1263 / 125) ∧
    (101 / 10 : ℚ) ≠ 1263 / 125 ∧
    (reconcile (fun x => x) [⟨some 1, PyValue.str "10.10"⟩]
        [(⟨some 1, PyValue.str "10.104"⟩ : Row (Option ℕ))]).unmatchedA =
      [⟨⟨some 1, PyValue.str "10.10"⟩, 1, PyFloat.finite (101 / 10)⟩] ∧
    (reconcile (fun x => x) [⟨some 1, PyValue.str "10.10"⟩]
        [(⟨some 1, PyValue.str "10.104"⟩ : Row (Option ℕ))]).unmatchedB =
      [⟨⟨some 1, PyValue.str "10.104"⟩, 1, PyFloat.finite (1263 / 125)⟩] := by
  have hne : ¬((1 : ℕ) = 1 ∧
      pyEq (PyFloat.finite (1263 / 125)) (PyFloat.finite (101 / 10)) = true) := by
    simp only [pyEq, decide_eq_true_eq]
    intro hcontra
    exact absurd hcontra.2 (by norm_num)
  have hrec := reconcile_one_one_unmatched (fun x => x)
    ⟨some 1, PyValue.str "10.10"⟩ ⟨some 1, PyValue.str "10.104"⟩ 1 1
    (PyFloat.finite (101 / 10)) (PyFloat.finite (1263 / 125))
    (toValid_eval _ _ 1 (101 / 10) rfl normalise_eval_1010)
    (toValid_eval _ _ 1 (1263 / 125) rfl normalise_eval_10104) hne
  refine ⟨normalise_eval_1010, normalise_eval_10104,
    by norm_num [roundTo2, round_eq], by norm_num, hrec.1, hrec.2⟩

end Reconciler
